import Mathlib

set_option maxRecDepth 100000

/-!
Verification development for the Filter-UAS-Zones repository.

The repository filters an ED-269-like GeoJSON feature collection by a
center/radius search, in three variants sharing the same core loop:
`filter_geojson.py` (strip-applicability transform), `filter_map_geojson.py`
and `interactive_uas_filter.py` (normalize-timestamp transform, the latter
behind an HTTP route with a shared result slot).

JSON values loaded by `json.load` are modelled by the inductive type `J`.
Python dicts are ordered association lists (insertion order preserved,
assignment to an existing key keeps its position, as in CPython 3.7+).
The shapely/pyproj geometry chain (validity repair, centroid, WGS84
geodesic distance) is an external library and is modelled by an oracle
`dist : J → Option ℚ` giving the geodesic distance from the search center
to the centroid of a horizontalProjection value; `none` models an
exception inside the try block of `geometry_matches_search_geodetic`.

Fallible Python code is modelled in the `Except PyErr` monad; the pure
functions below compute the value a run produces.  A separate small heap
model (`HVal`/`HObj`/`Heap`) captures Python object identity and in-place
mutation, which the pure value model cannot express; it is used to settle
the frame claim about the original collection staying unmodified.
-/

namespace UAS

/-- Characters written via code points so that brace and quote characters
never appear literally in the file. -/
def lbrace : Char := Char.ofNat 123

def rbrace : Char := Char.ofNat 125

def dquote : Char := Char.ofNat 34

def apos : Char := Char.ofNat 39

def aposS : String := String.mk [apos]

/-- A JSON value as produced by `json.load`. -/
inductive J where
  | str (s : String)
  | int (n : Int)
  | bool (b : Bool)
  | null
  | arr (xs : List J)
  | obj (kvs : List (String × J))

-- Boolean equality on `J` (structural).
mutual

def beqJ : J → J → Bool
  | J.str a, J.str b => a == b
  | J.int a, J.int b => a == b
  | J.bool a, J.bool b => a == b
  | J.null, J.null => true
  | J.arr xs, J.arr ys => beqJArr xs ys
  | J.obj xs, J.obj ys => beqJObj xs ys
  | _, _ => false

def beqJArr : List J → List J → Bool
  | [], [] => true
  | x :: xs, y :: ys => beqJ x y && beqJArr xs ys
  | _, _ => false

def beqJObj : List (String × J) → List (String × J) → Bool
  | [], [] => true
  | (k, v) :: xs, (l, w) :: ys => k == l && beqJ v w && beqJObj xs ys
  | _, _ => false

end

/-- Induction over `J` with hypotheses on the members of nested lists. -/
def J.memInd (P : J → Prop)
    (hstr : ∀ s, P (J.str s)) (hint : ∀ n, P (J.int n))
    (hbool : ∀ b, P (J.bool b)) (hnull : P J.null)
    (harr : ∀ xs, (∀ x ∈ xs, P x) → P (J.arr xs))
    (hobj : ∀ kvs, (∀ kv ∈ kvs, P (kv : String × J).2) → P (J.obj kvs)) :
    ∀ v, P v
  | J.str s => hstr s
  | J.int n => hint n
  | J.bool b => hbool b
  | J.null => hnull
  | J.arr xs =>
      harr xs fun x hx => J.memInd P hstr hint hbool hnull harr hobj x
  | J.obj kvs =>
      hobj kvs fun kv hkv => J.memInd P hstr hint hbool hnull harr hobj kv.2
termination_by v => sizeOf v
decreasing_by
  · simp only [J.arr.sizeOf_spec]
    have h1 := List.sizeOf_lt_of_mem hx
    omega
  · simp only [J.obj.sizeOf_spec]
    have h1 := List.sizeOf_lt_of_mem hkv
    have h2 : sizeOf kv.2 < sizeOf kv := by
      obtain ⟨k, v⟩ := kv
      simp only [Prod.mk.sizeOf_spec]
      omega
    omega

theorem beqJ_iff : ∀ a b : J, beqJ a b = true ↔ a = b := by
  intro a
  induction a using J.memInd with
  | hstr s => intro b; cases b <;> simp [beqJ]
  | hint n => intro b; cases b <;> simp [beqJ]
  | hbool b0 => intro b; cases b <;> simp [beqJ]
  | hnull => intro b; cases b <;> simp [beqJ]
  | harr xs ih =>
      intro b
      cases b <;> simp [beqJ]
      rename_i ys
      induction xs generalizing ys with
      | nil => cases ys <;> simp [beqJArr]
      | cons x xs ihx =>
          cases ys with
          | nil => simp [beqJArr]
          | cons y ys =>
              simp [beqJArr, ih x (by simp),
                ihx (fun z hz => ih z (by simp [hz])) ys]
  | hobj kvs ih =>
      intro b
      cases b <;> simp [beqJ]
      rename_i ys
      induction kvs generalizing ys with
      | nil => cases ys <;> simp [beqJObj]
      | cons kv kvs ihx =>
          cases ys with
          | nil => simp [beqJObj]
          | cons lw ys =>
              obtain ⟨k, v⟩ := kv
              obtain ⟨l, w⟩ := lw
              simp [beqJObj, ih (k, v) (by simp),
                ihx (fun z hz => ih z (by simp [hz])) ys]

instance : DecidableEq J := fun a b => decidable_of_iff _ (beqJ_iff a b)

instance {ε α : Type} [DecidableEq ε] [DecidableEq α] :
    DecidableEq (Except ε α) := fun a b =>
  match a, b with
  | .ok x, .ok y => decidable_of_iff (x = y) (by simp)
  | .error e, .error f => decidable_of_iff (e = f) (by simp)
  | .ok _, .error _ => isFalse (by simp)
  | .error _, .ok _ => isFalse (by simp)

/-- Python exception kinds relevant to the filter code. -/
inductive PyErr where
  | keyError
  | typeError
  | attrError
deriving DecidableEq

/-- Dict lookup (first occurrence of the key). -/
def getVal : List (String × J) → String → Option J
  | [], _ => none
  | (k, v) :: kvs, key => if k = key then some v else getVal kvs key

/-- Dict assignment: update in place if the key exists (keeping its
position), otherwise append, as CPython dicts do. -/
def setVal : List (String × J) → String → J → List (String × J)
  | [], key, v => [(key, v)]
  | (k, w) :: kvs, key, v =>
      if k = key then (k, v) :: kvs else (k, w) :: setVal kvs key v

/-- `dict.pop(key, None)`: remove the key if present. -/
def delVal : List (String × J) → String → List (String × J)
  | [], _ => []
  | (k, w) :: kvs, key => if k = key then kvs else (k, w) :: delVal kvs key

/-- `v.get(k)`: only objects have the `get` method. -/
def pyGet (v : J) (k : String) : Except PyErr (Option J) :=
  match v with
  | J.obj kvs => .ok (getVal kvs k)
  | _ => .error .attrError

/-- `v[k]` with a string key. -/
def subscr (v : J) (k : String) : Except PyErr J :=
  match v with
  | J.obj kvs =>
      match getVal kvs k with
      | some x => .ok x
      | none => .error .keyError
  | _ => .error .typeError

/-- Python truthiness of a value. -/
def pyTruthy : J → Bool
  | J.str s => !s.isEmpty
  | J.int n => n != 0
  | J.bool b => b
  | J.null => false
  | J.arr xs => !xs.isEmpty
  | J.obj kvs => !kvs.isEmpty

/-- Iterating a value with `for x in v`: lists yield elements, dicts
yield their keys, strings yield one-character strings, anything else
raises TypeError. -/
def iterJ (v : J) : Except PyErr (List J) :=
  match v with
  | J.arr xs => .ok xs
  | J.obj kvs => .ok (kvs.map fun kv => J.str kv.1)
  | J.str s => .ok (s.data.map fun c => J.str (String.mk [c]))
  | _ => .error .typeError

/-- `for x in d.get(k, [])`: a missing key iterates the empty default. -/
def iterDefault (o : Option J) : Except PyErr (List J) :=
  match o with
  | none => .ok []
  | some v => iterJ v

/-- Prefix test on character lists. -/
def listIsPre : List Char → List Char → Bool
  | [], _ => true
  | _ :: _, [] => false
  | p :: ps, c :: cs => p = c && listIsPre ps cs

/-- Substring test on character lists. -/
def listHasSub (pat : List Char) : List Char → Bool
  | [] => listIsPre pat []
  | c :: cs => listIsPre pat (c :: cs) || listHasSub pat cs

/-- `pat in s` for strings (Python substring containment). -/
def strContains (s pat : String) : Bool := listHasSub pat.data s.data

/-- `s.endswith(pat)`. -/
def strEndsWith (s pat : String) : Bool := listIsPre pat.data.reverse s.data.reverse

/-- `key in v`: key membership for dicts, element membership for lists,
substring containment for strings; TypeError otherwise. -/
def pyIn (key : String) (v : J) : Except PyErr Bool :=
  match v with
  | J.obj kvs => .ok (getVal kvs key).isSome
  | J.arr xs => .ok (xs.contains (J.str key))
  | J.str s => .ok (strContains s key)
  | _ => .error .typeError

/-- `str.replace(pat, rep)` core: left-to-right, non-overlapping, the
replacement text is not rescanned.  Fuel-based structural recursion so
that the kernel can evaluate it; fuel `s.length` always suffices. -/
def replChars (pat rep : List Char) : ℕ → List Char → List Char
  | _, [] => []
  | 0, s => s
  | n + 1, c :: cs =>
      if pat ≠ [] ∧ listIsPre pat (c :: cs) = true then
        rep ++ replChars pat rep n (List.drop (pat.length - 1) cs)
      else
        c :: replChars pat rep n cs

/-- `s.replace(pat, rep)` (replaces every occurrence). -/
def strReplace (s pat rep : String) : String :=
  String.mk (replChars pat.data rep.data s.data.length s.data)

/-- Python whitespace characters (`\s` for ASCII input). -/
def isPyWS (c : Char) : Bool :=
  c = ' ' || c = Char.ofNat 9 || c = Char.ofNat 10 || c = Char.ofNat 13 ||
  c = Char.ofNat 11 || c = Char.ofNat 12

/-- `s.strip()`. -/
def pyStrip (s : String) : String :=
  String.mk (((s.data.dropWhile isPyWS).reverse.dropWhile isPyWS).reverse)

/-- Helper for `str.split`: prepend a character to the first segment. -/
def consHead (c : Char) : List (List Char) → List (List Char)
  | [] => [[c]]
  | h :: t => (c :: h) :: t

/-- `s.split(sep)` for a nonempty separator, fuel-based. -/
def pySplitChars (sep : List Char) : ℕ → List Char → List (List Char)
  | _, [] => [[]]
  | 0, s => [s]
  | n + 1, c :: cs =>
      if listIsPre sep (c :: cs) = true then
        [] :: pySplitChars sep n (List.drop (sep.length - 1) cs)
      else
        consHead c (pySplitChars sep n cs)

/-- `s.split(sep)[0]`. -/
def splitHead (s sep : String) : String :=
  String.mk ((pySplitChars sep.data s.data.length s.data).headD [])

/-- Numeric value of a digit string. -/
def natOfDigits : List Char → ℕ :=
  List.foldl (fun a c => a * 10 + (c.toNat - 48)) 0

/-- `(cs.takeWhile p, cs.dropWhile p)`. -/
def spanP (p : Char → Bool) (cs : List Char) : List Char × List Char :=
  (cs.takeWhile p, cs.dropWhile p)

/-- Character class of the regex fragment between degrees and minutes. -/
def isDegSep (c : Char) : Bool := c = '°' || isPyWS c

/-- Character class of the regex fragment between minutes and seconds. -/
def isMinSep (c : Char) : Bool := c = apos || isPyWS c

/-- Character class of the regex fragment after the seconds. -/
def isSecSep (c : Char) : Bool := c = dquote || isPyWS c

/-- The direction letters, case-insensitive. -/
def dirChars : List Char := ['N', 'S', 'E', 'W', 'n', 's', 'e', 'w']

/-- The anchored match of the verbose regex of `dms_to_decimal` against
`dms.strip()`.  The regex is
`(?P<deg>-?\d+)[°\s]+(?P<min>\d+)[<apos>\s]+(?P<sec>\d+(\.\d+)?)[<dquote>\s]*(?P<dir>[NSEW])?`
with IGNORECASE; all adjacent character classes are disjoint, so greedy
matching without backtracking is exact, and `re.match` allows trailing
text.  Returns the captured degree (signed), minutes, integer seconds,
fractional-second digits and optional direction letter. -/
def dmsMatch (s : String) : Option (Int × ℕ × ℕ × List Char × Option Char) :=
  let cs0 := (pyStrip s).data
  let negb := match cs0 with | c :: _ => c == '-' | [] => false
  let cs1 := if negb then cs0.tail else cs0
  let p1 := spanP Char.isDigit cs1
  let p2 := spanP isDegSep p1.2
  let p3 := spanP Char.isDigit p2.2
  let p4 := spanP isMinSep p3.2
  let p5 := spanP Char.isDigit p4.2
  let pf : List Char × List Char :=
    match p5.2 with
    | c :: rest =>
        if c = '.' then
          let fs := spanP Char.isDigit rest
          if fs.1 = [] then ([], p5.2) else fs
        else ([], p5.2)
    | [] => ([], p5.2)
  let cs8 := (spanP isSecSep pf.2).2
  let dir : Option Char :=
    match cs8 with
    | c :: _ => if dirChars.contains c then some c else none
    | [] => none
  if p1.1 = [] || p2.1 = [] || p3.1 = [] || p4.1 = [] || p5.1 = [] then none
  else
    some ((if negb then -1 else 1) * (natOfDigits p1.1 : Int),
      natOfDigits p3.1, natOfDigits p5.1, pf.1, dir)

/-- `float(match.group("sec"))`: the seconds value with its optional
fractional digits. -/
def secVal (secI : ℕ) (fr : List Char) : ℚ :=
  (secI : ℚ) + (natOfDigits fr : ℚ) / (10 : ℚ) ^ fr.length

/-- `direction and direction.upper() in ("S", "W")`. -/
def dirSW (dir : Option Char) : Bool :=
  match dir with
  | some c => c.toUpper = 'S' || c.toUpper = 'W'
  | none => false

/-- `dms_to_decimal` of `filter_geojson.py` lines 12-36 (identical in
`filter_map_geojson.py`): floats are modelled as exact rationals, the
raised ValueError as the error case. -/
def dms_to_decimal (s : String) : Except String ℚ :=
  match dmsMatch s with
  | none => .error ("Formato DMS non valido: " ++ s)
  | some (deg, mn, secI, fr, dir) =>
      let decimal : ℚ := (deg.natAbs : ℚ) + (mn : ℚ) / 60 + secVal secI fr / 3600
      .ok (if deg < 0 ∨ dirSW dir = true then -decimal else decimal)

/-- `geometry_matches_search_geodetic` (`filter_geojson.py` lines 39-56,
identical in the other variants): the shapely/pyproj chain
(validity check, `buffer(0)` repair, centroid, WGS84 `geod.inv`) is an
external library, modelled by the oracle `dist` giving the geodesic
distance from the search center to the centroid of the
horizontalProjection value; `none` models an exception inside the try
block, on which the function returns False. -/
def geometry_matches_search_geodetic (dist : J → Option ℚ) (radius_m : ℚ)
    (hp : J) : Bool :=
  match dist hp with
  | none => false
  | some d => decide (d ≤ radius_m)

/-- `feature.get("geometry", [])` as an iterable. -/
def getGeoms (f : J) : Except PyErr (List J) := do
  iterDefault (← pyGet f "geometry")

/-- The inner geometry loop of the filter: look up
`geom["horizontalProjection"]`, test the match, and on the first match
apply the per-variant transform `tf` to the feature and stop. -/
def procGeoms (m : J → Bool) (tf : J → Except PyErr J) (f : J) :
    List J → Except PyErr (Option J)
  | [] => .ok none
  | g :: gs => do
      let hp ← subscr g "horizontalProjection"
      if m hp then
        let t ← tf f
        pure (some t)
      else
        procGeoms m tf f gs

/-- One feature of the outer loop. -/
def procFeature (m : J → Bool) (tf : J → Except PyErr J) (f : J) :
    Except PyErr (Option J) := do
  procGeoms m tf f (← getGeoms f)

/-- The outer loop over `geojson.get("features", [])`, collecting the
transformed copies of matched features in order. -/
def filterFeatures (m : J → Bool) (tf : J → Except PyErr J) :
    List J → Except PyErr (List J)
  | [] => .ok []
  | f :: fs => do
      let o ← procFeature m tf f
      let rest ← filterFeatures m tf fs
      pure (match o with | some t => t :: rest | none => rest)

/-- The fixed replacement description of strip mode. -/
def rcMessage : String := "[Date/Time removed for RC compatibility]"

/-- One entry of the strip-mode scan:
`"startDateTime" in a or "endDateTime" in a` with Python shortcut
evaluation. -/
def entryHasDT (a : J) : Except PyErr Bool := do
  if (← pyIn "startDateTime" a) then pure true else pyIn "endDateTime" a

/-- The strip-mode scan over the applicability entries: stop at the
first entry whose membership test is true. -/
def scanDT : List J → Except PyErr Bool
  | [] => .ok false
  | a :: rest => do
      if (← entryHasDT a) then pure true else scanDT rest

/-- Strip-mode transform of a matched feature
(`filter_geojson.py` lines 84-96): `feature_copy = feature.copy()`, and
when `applicability` is a truthy list one of whose entries passes the
membership test, pop `applicability` and overwrite `description`.
The pure model returns the value of the resulting copy. -/
def trStrip (f : J) : Except PyErr J :=
  match f with
  | J.obj kvs =>
      match getVal kvs "applicability" with
      | some (J.arr l) =>
          if l.isEmpty then .ok (J.obj kvs)
          else do
            if (← scanDT l) then
              pure (J.obj (setVal (delVal kvs "applicability") "description"
                (J.str rcMessage)))
            else
              pure (J.obj kvs)
      | _ => .ok (J.obj kvs)
  | _ => .error .attrError

/-- One key of the normalize-mode entry rewrite:
`if key in app and isinstance(app[key], str) and app[key].endswith("Z"):
app[key] = app[key].replace("Z", "+00:00")`. -/
def normDTKey (key : String) (a : J) : Except PyErr J := do
  if (← pyIn key a) then
    let v ← subscr a key
    match v with
    | J.str s =>
        if strEndsWith s "Z" then
          match a with
          | J.obj kvs =>
              pure (J.obj (setVal kvs key (J.str (strReplace s "Z" "+00:00"))))
          | _ => .error .typeError
        else pure a
    | _ => pure a
  else pure a

/-- Normalize-mode rewrite of one applicability entry: the two keys in
sequence. -/
def normEntry (a : J) : Except PyErr J := do
  normDTKey "endDateTime" (← normDTKey "startDateTime" a)

/-- Monadic map used by the normalize transform. -/
def mapMEx (g : J → Except PyErr J) : List J → Except PyErr (List J)
  | [] => .ok []
  | x :: xs => do pure ((← g x) :: (← mapMEx g xs))

/-- Normalize-mode transform of a matched feature
(`filter_map_geojson.py` lines 97-105, `interactive_uas_filter.py` lines
82-88): rewrite every `startDateTime`/`endDateTime` ending in `Z`.  The
pure model returns the value of the resulting copy; the in-place
mutation of the shared entries is captured by the heap model below. -/
def trNorm (f : J) : Except PyErr J :=
  match f with
  | J.obj kvs =>
      match getVal kvs "applicability" with
      | none => .ok (J.obj kvs)
      | some (J.arr l) => do
          let l2 ← mapMEx normEntry l
          pure (J.obj (setVal kvs "applicability" (J.arr l2)))
      | some v => do
          let items ← iterJ v
          let _ ← mapMEx normEntry items
          pure (J.obj kvs)
  | _ => .error .attrError

/-- `sum(1 for f in filtered if f.get("otherReasonInfo") == tag)`. -/
def countTag (l : List J) (tag : String) : Except PyErr ℕ :=
  match l with
  | [] => .ok 0
  | f :: fs => do
      let o ← pyGet f "otherReasonInfo"
      let n ← countTag fs tag
      pure ((if o = some (J.str tag) then 1 else 0) + n)

/-- The deterministic summary appended to the description. -/
def summaryText (nGeo nAtm nNfz nNotam : ℕ) : String :=
  " - cropped - GeoZones[" ++ Nat.repr nGeo ++ "] - ATM09[" ++
    Nat.repr nAtm ++ "]/NFZ[" ++ Nat.repr nNfz ++ "]/NOTAM[" ++
    Nat.repr nNotam ++ "]"

/-- Result assembly (`filter_geojson.py` lines 103-122, identical in the
other variants): rebuild the collection with the filtered features,
append the title suffix, and rewrite the description from its prefix
before the first ` - GeoZones`, stripped, plus the summary. -/
def assemble (g : J) (filtered : List J) : Except PyErr J :=
  match g with
  | J.obj kvs => do
      let base := (kvs.filter fun kv => kv.1 ≠ "features") ++
        [("features", J.arr filtered)]
      let base1 ←
        match getVal base "title" with
        | some (J.str t) => pure (setVal base "title" (J.str (t ++ " - cropped")))
        | some _ => Except.error PyErr.typeError
        | none => pure base
      let nAtm ← countTag filtered "ATM09"
      let nNfz ← countTag filtered "NFZ"
      let nNotam ← countTag filtered "NOTAM"
      let base2 ←
        match getVal base1 "description" with
        | some (J.str d) =>
            pure (setVal base1 "description" (J.str
              (pyStrip (splitHead d " - GeoZones") ++
                summaryText filtered.length nAtm nNfz nNotam)))
        | some _ => Except.error PyErr.attrError
        | none => pure base1
      pure (J.obj base2)
  | _ => .error .attrError

/-- Hex digit (lowercase), for the control-character escapes of
`json.dumps`. -/
def hexDigit (n : ℕ) : Char :=
  if n < 10 then Char.ofNat (48 + n) else Char.ofNat (87 + n)

/-- JSON string escaping with `ensure_ascii=False`. -/
def escChar (c : Char) : List Char :=
  if c = dquote then ['\\', dquote]
  else if c = '\\' then ['\\', '\\']
  else if c = Char.ofNat 10 then ['\\', 'n']
  else if c = Char.ofNat 9 then ['\\', 't']
  else if c = Char.ofNat 13 then ['\\', 'r']
  else if c = Char.ofNat 8 then ['\\', 'b']
  else if c = Char.ofNat 12 then ['\\', 'f']
  else if c.toNat < 32 then
    ['\\', 'u', '0', '0', hexDigit (c.toNat / 16), hexDigit (c.toNat % 16)]
  else [c]

/-- A JSON string literal. -/
def quoteStr (s : String) : String :=
  String.mk (dquote :: s.data.foldr (fun c acc => escChar c ++ acc) [dquote])

-- `json.dumps(v, ensure_ascii=False, separators=(",", ":"))`.
mutual

def dumps : J → String
  | J.str s => quoteStr s
  | J.int n => toString n
  | J.bool b => if b then "true" else "false"
  | J.null => "null"
  | J.arr xs => "[" ++ dumpsArr xs ++ "]"
  | J.obj kvs => String.mk [lbrace] ++ dumpsObj kvs ++ String.mk [rbrace]

def dumpsArr : List J → String
  | [] => ""
  | [x] => dumps x
  | x :: y :: xs => dumps x ++ "," ++ dumpsArr (y :: xs)

def dumpsObj : List (String × J) → String
  | [] => ""
  | [(k, v)] => quoteStr k ++ ":" ++ dumps v
  | (k, v) :: kv :: kvs => quoteStr k ++ ":" ++ dumps v ++ "," ++ dumpsObj (kv :: kvs)

end

/-- The pattern of the post-encoding substitution: rbrace, comma, lbrace. -/
def sepPat : String := String.mk [rbrace, ',', lbrace]

/-- Its replacement: rbrace, comma, newline, lbrace. -/
def sepNl : String := String.mk [rbrace, ',', Char.ofNat 10, lbrace]

/-- The serialized output text:
`json.dumps(...).replace(sepPat, sepNl)`. -/
def serializeOut (v : J) : String := strReplace (dumps v) sepPat sepNl

/-- The shared filter pipeline after coordinate parsing and file
loading: iterate `geojson.get("features", [])`, filter with the given
transform, assemble the output collection.  `radius_m` is in meters. -/
def filterCore (tf : J → Except PyErr J) (dist : J → Option ℚ)
    (radius_m : ℚ) (g : J) : Except PyErr J := do
  let feats ← iterDefault (← pyGet g "features")
  let filtered ← filterFeatures
    (geometry_matches_search_geodetic dist radius_m) tf feats
  assemble g filtered

/-- `filter_geojson_by_radius` (`filter_geojson.py`, strip mode) for a
loaded collection `g`: `radius_m = radius_km * 1000`; returns the output
collection and the text written to `filtered.json`. -/
def filter_geojson_by_radius (dist : J → Option ℚ) (radius_km : ℚ) (g : J) :
    Except PyErr (J × String) := do
  let out ← filterCore trStrip dist (radius_km * 1000) g
  pure (out, serializeOut out)

/-- `process_geojson` (`filter_map_geojson.py`, normalize mode), up to
the write of `filtered.json` (map generation is out of scope). -/
def process_geojson (dist : J → Option ℚ) (radius_km : ℚ) (g : J) :
    Except PyErr (J × String) := do
  let out ← filterCore trNorm dist (radius_km * 1000) g
  pure (out, serializeOut out)

/-- `filter_by_circle` (`interactive_uas_filter.py`, normalize mode):
radius already in meters; the planar `search_area` buffer it builds is
dead code (the match still calls `geometry_matches_search_geodetic`). -/
def filter_by_circle (dist : J → Option ℚ) (radius_m : ℚ) (g : J) :
    Except PyErr J :=
  filterCore trNorm dist radius_m g

/-- The interactive server state: the loaded original, the shared
current-result slot `CURRENT_GEOJSON`, and the content of
`filtered.json` if written. -/
structure SrvState where
  original : J
  current : Option J
  fileOut : Option String
deriving DecidableEq

/-- The JSON status replies of the `/filter` route. -/
inductive RouteResp where
  | respEmpty
  | respOk
deriving DecidableEq

/-- The `/filter` route (`interactive_uas_filter.py` lines 268-298):
filter the original; when the result has no features reply `empty` and
leave the state alone, otherwise store the result in the slot, write the
file and reply `ok`.  The center is folded into `dist`. -/
def filter_route (dist : J → Option ℚ) (radius_m : ℚ) (st : SrvState) :
    Except PyErr (RouteResp × SrvState) := do
  let filtered ← filter_by_circle dist radius_m st.original
  let fv ← pyGet filtered "features"
  if (match fv with | some v => pyTruthy v | none => false) then
    pure (RouteResp.respOk,
      { st with current := some filtered, fileOut := some (serializeOut filtered) })
  else
    pure (RouteResp.respEmpty, st)

/-! ### Observation helpers and spec-side definitions -/

/-- Value of a key of an object, `none` otherwise. -/
def getKeyOpt (v : J) (k : String) : Option J :=
  match v with
  | J.obj kvs => getVal kvs k
  | _ => none

/-- The features array of an assembled collection. -/
def featuresOf (v : J) : List J :=
  match getKeyOpt v "features" with
  | some (J.arr l) => l
  | _ => []

/-- The features of the collection of a successful CLI run. -/
def featuresOfRun (e : Except PyErr (J × String)) : List J :=
  match e with
  | .ok p => featuresOf p.1
  | .error _ => []

/-- Total counterpart of `getGeoms`, agreeing with it on every feature
on which `getGeoms` succeeds. -/
def specGeoms (f : J) : List J :=
  match f with
  | J.obj kvs =>
      match getVal kvs "geometry" with
      | none => []
      | some (J.arr xs) => xs
      | some (J.obj m) => m.map fun kv => J.str kv.1
      | some (J.str s) => s.data.map fun c => J.str (String.mk [c])
      | some _ => []
  | _ => []

/-- Total counterpart of the `horizontalProjection` lookup. -/
def specHP (g : J) : J :=
  match g with
  | J.obj kvs => (getVal kvs "horizontalProjection").getD J.null
  | _ => J.null

/-- Modelled from the spec: a feature is included iff at least one of
its geometry entries matches the search region. -/
def specIncl (m : J → Bool) (f : J) : Bool :=
  (specGeoms f).any fun g => m (specHP g)

/-- Modelled from the spec: truncation of a string at the first
occurrence of a separator (the whole string when the separator does not
occur), written as a direct scanner, independent of the
`split(sep)[0]` route the code takes. -/
def truncFirstChars (sep : List Char) : List Char → List Char
  | [] => []
  | c :: cs =>
      if listIsPre sep (c :: cs) = true then [] else c :: truncFirstChars sep cs

/-- Modelled from the spec: the description rewrite as the claim states
it, truncation at the first ` - GeoZones` followed directly by the
summary, with no whitespace stripping. -/
def claimDescription (d : String) (nGeo nAtm nNfz nNotam : ℕ) : String :=
  String.mk (truncFirstChars (" - GeoZones").data d.data) ++
    summaryText nGeo nAtm nNfz nNotam

/-! ### Heap model of the normalize variants

The pure functions above give the value a run produces, but Python also
has object identity: `feature.copy()` is a shallow copy, so the copy and
the original feature share the same `applicability` list object and the
same entry dict objects.  The small heap model below captures exactly
the matched-feature branch of `process_geojson`
(`filter_map_geojson.py` lines 90-106): strings are immutable and kept
inline, every dict and list lives at a heap address.  Geometry matching
is abstracted by an oracle on the feature address, as the geometry chain
is external and irrelevant to the mutation question. -/

/-- A Python reference: an immutable string inline or an address. -/
inductive HVal where
  | hstr (s : String)
  | hint (n : Int)
  | href (a : ℕ)
deriving DecidableEq

/-- A heap object: a dict or a list. -/
inductive HObj where
  | hdict (kvs : List (String × HVal))
  | hlist (xs : List HVal)
deriving DecidableEq

/-- The heap: object at address `a` is the `a`-th entry. -/
abbrev Heap := List HObj

/-- Dereference. -/
def hget (h : Heap) (a : ℕ) : Option HObj := h.get? a

/-- In-place update of the object at an address. -/
def hset (h : Heap) (a : ℕ) (o : HObj) : Heap := h.set a o

/-- Dict lookup in the heap model. -/
def dgetH : List (String × HVal) → String → Option HVal
  | [], _ => none
  | (k, v) :: kvs, key => if k = key then some v else dgetH kvs key

/-- Dict assignment in the heap model (in place, keeping key order). -/
def dsetH : List (String × HVal) → String → HVal → List (String × HVal)
  | [], key, v => [(key, v)]
  | (k, w) :: kvs, key, v =>
      if k = key then (k, v) :: kvs else (k, w) :: dsetH kvs key v

/-- `if key in app and isinstance(app[key], str) and app[key].endswith("Z"):
app[key] = app[key].replace("Z", "+00:00")` on the entry dict at `a`:
an in-place heap write. -/
def normKeyH (h : Heap) (a : ℕ) (key : String) : Heap :=
  match hget h a with
  | some (HObj.hdict kvs) =>
      match dgetH kvs key with
      | some (HVal.hstr s) =>
          if strEndsWith s "Z" then
            hset h a (HObj.hdict (dsetH kvs key
              (HVal.hstr (strReplace s "Z" "+00:00"))))
          else h
      | _ => h
  | _ => h

/-- Both keys of one applicability entry, in source order. -/
def normEntryH (h : Heap) (v : HVal) : Heap :=
  match v with
  | HVal.href a => normKeyH (normKeyH h a "startDateTime") a "endDateTime"
  | _ => h

/-- The loop `for app in feature_copy.get("applicability", [])`. -/
def normAllH (h : Heap) : List HVal → Heap
  | [] => h
  | v :: vs => normAllH (normEntryH h v) vs

/-- The matched-feature branch: `feature_copy = feature.copy()` (a new
dict sharing all value references), then the timestamp normalization
through the shared applicability list.  Returns the heap and the address
of the copy. -/
def copyNormalizeH (h : Heap) (fa : ℕ) : Heap × Option ℕ :=
  match hget h fa with
  | some (HObj.hdict kvs) =>
      let h1 := h ++ [HObj.hdict kvs]
      let ca := h.length
      match dgetH kvs "applicability" with
      | some (HVal.href la) =>
          match hget h1 la with
          | some (HObj.hlist entries) => (normAllH h1 entries, some ca)
          | _ => (h1, some ca)
      | _ => (h1, some ca)
  | _ => (h, none)

/-- The outer feature loop of `process_geojson` in the heap model, with
the geometry match abstracted by the oracle `m`. -/
def processHeap (m : Heap → ℕ → Bool) (h : Heap) :
    List ℕ → Heap × List ℕ
  | [] => (h, [])
  | fa :: fas =>
      if m h fa then
        let p := copyNormalizeH h fa
        let q := processHeap m p.1 fas
        (q.1, p.2.toList ++ q.2)
      else
        processHeap m h fas

/-! ### Concrete example data -/

/-- A distance oracle under which every geometry is at distance 0. -/
def distZero : J → Option ℚ := fun _ => some 0

/-- A distance oracle reading the distance off an integer
horizontalProjection value (exceptions elsewhere). -/
def distOfInt : J → Option ℚ :=
  fun hp => match hp with | J.int n => some (n : ℚ) | _ => none

/-- `45°50′34″N` (apostrophe and double quote as in the spec). -/
def dmsEx1 : String := "45°50" ++ aposS ++ "34\"N"

/-- `9°16′12″W`. -/
def dmsEx2 : String := "9°16" ++ aposS ++ "12\"W"

/-- A negative-degree string with direction `N`. -/
def dmsEx3 : String := "-45°50" ++ aposS ++ "34\"N"

/-- Heap-model applicability entry before the normalize run. -/
def entryBefore : HObj :=
  HObj.hdict [("startDateTime", HVal.hstr "2030-05-01T10:00:00Z")]

/-- The same entry after the normalize run. -/
def entryAfter : HObj :=
  HObj.hdict [("startDateTime", HVal.hstr "2030-05-01T10:00:00+00:00")]

/-- A loaded collection in the heap model: entry dict at address 0, the
applicability list at address 1, the feature dict at address 2. -/
def exHeapC1 : Heap :=
  [entryBefore,
   HObj.hlist [HVal.href 0],
   HObj.hdict [("name", HVal.hstr "Zone A"), ("applicability", HVal.href 1)]]

/-- A collection with a single feature carrying two applicability
entries: its serialization contains the separator pattern inside the
feature, with no top-level feature boundary at all. -/
def collC2 : J :=
  J.obj [("features", J.arr [J.obj [("applicability", J.arr
    [J.obj [("startDateTime", J.str "2030-01-01T00:00:00+00:00")],
     J.obj [("endDateTime", J.str "2030-02-01T00:00:00+00:00")]])]])]

/-- The newline character as a string. -/
def nlS : String := String.mk [Char.ofNat 10]

/-- A collection whose first feature has a geometry entry lacking
`horizontalProjection`, followed by a well-formed feature. -/
def collC3 : J :=
  J.obj [("features", J.arr [
    J.obj [("geometry", J.arr [J.obj [("name", J.str "entry without projection")]])],
    J.obj [("geometry", J.arr [J.obj [("horizontalProjection", J.int 0)]])]])]

/-- Feature at geodesic distance 1000 m under `distOfInt`, with no
applicability. -/
def featA : J :=
  J.obj [("id", J.str "A"),
    ("geometry", J.arr [J.obj [("horizontalProjection", J.int 1000)]])]

/-- Feature at distance 10000 m whose applicability list holds a bare
integer entry, on which the strip-mode membership test raises. -/
def featB : J :=
  J.obj [("id", J.str "B"),
    ("geometry", J.arr [J.obj [("horizontalProjection", J.int 10000)]]),
    ("applicability", J.arr [J.int 5])]

/-- The two features together. -/
def collC8 : J := J.obj [("features", J.arr [featA, featB])]

/-- A feature matched for the C4 witness. -/
def featC4 : J :=
  J.obj [("geometry", J.arr [J.obj [("horizontalProjection", J.int 0)]])]

/-- A one-feature collection for the C8 witness. -/
def collC8W : J := J.obj [("features", J.arr [featA])]

/-- Its assembled filter output (no title or description keys). -/
def outC8W : J := J.obj [("features", J.arr [featA])]

/-- The assembled output of the C7 witness input. -/
def outC7W : J :=
  J.obj [("title", J.str "Map - cropped"),
    ("description",
      J.str "Zones - cropped - GeoZones[0] - ATM09[0]/NFZ[0]/NOTAM[0]"),
    ("features", J.arr [])]

/-- An empty-collection interactive state for the C9 witness. -/
def stEmpty : SrvState :=
  { original := J.obj [("features", J.arr [])], current := none, fileOut := none }

/-- A one-feature original for the C9 witness of the nonempty branch. -/
def stOne : SrvState :=
  { original := J.obj [("features", J.arr [featC4])], current := none, fileOut := none }

/-! ### Helper lemmas -/

@[simp]
theorem bindOk {α β : Type} (a : α) (f : α → Except PyErr β) :
    (Except.ok a : Except PyErr α) >>= f = f a := rfl

@[simp]
theorem bindErr {α β : Type} (e : PyErr) (f : α → Except PyErr β) :
    (Except.error e : Except PyErr α) >>= f = Except.error e := rfl

@[simp]
theorem pureOk {α : Type} (a : α) :
    (pure a : Except PyErr α) = Except.ok a := rfl

/-! ### Claim theorems -/

/-- C1: the claim says every filter invocation leaves the loaded
original FeatureCollection completely unmodified, in particular that the
timestamp normalization must not touch the original applicability
entries.  The code violates this: `feature.copy()` is shallow, so the
copy shares the applicability list and entry dicts with the original,
and the normalization writes through them.  Running the heap model of
`process_geojson` on a loaded collection whose only feature matches: the
entry dict at address 0 - reachable from the untouched original feature
at address 2 through the applicability list at address 1 - is mutated in
place from a `Z` suffix to `+00:00`. -/
theorem C1_normalize_mutates_original :
    hget exHeapC1 0 = some entryBefore ∧
    hget (processHeap (fun _ _ => true) exHeapC1 [2]).1 0 = some entryAfter ∧
    hget (processHeap (fun _ _ => true) exHeapC1 [2]).1 1 =
      some (HObj.hlist [HVal.href 0]) ∧
    hget (processHeap (fun _ _ => true) exHeapC1 [2]).1 2 =
      some (HObj.hdict [("name", HVal.hstr "Zone A"),
        ("applicability", HVal.href 1)]) ∧
    entryAfter ≠ entryBefore := by
  decide

/-- C2: the claim says the post-encoding substitution affects only the
commas separating top-level elements of the features array and never
occurrences of the pattern inside a feature.  The code calls a global
`str.replace`: on a collection with a single feature (hence no top-level
separator at all) whose applicability has two entries, the substitution
still fires, inserting a newline inside the feature. -/
theorem C2_substitution_hits_nested :
    (featuresOf collC2).length = 1 ∧
    strContains (dumps collC2) nlS = false ∧
    strContains (serializeOut collC2) nlS = true := by
  decide

/-- C5: for every string the parser accepts, the returned value is
`|deg| + min/60 + sec/3600`, negated exactly once iff the degree was
written negative or the direction letter is S/W; and the spec examples:
`45°50′34″N` is `82517/1800 ≈ 45.84278`, `9°16′12″W` is `-9.27`, and a
negative-degree string with direction N still yields a negative value
(single negation, not a double one). -/
theorem C5_dms_value :
    (∀ s deg mn secI fr dir, dmsMatch s = some (deg, mn, secI, fr, dir) →
      dms_to_decimal s = .ok
        (((deg.natAbs : ℚ) + (mn : ℚ) / 60 + secVal secI fr / 3600) *
          (if deg < 0 ∨ dirSW dir = true then -1 else 1))) ∧
    dms_to_decimal dmsEx1 = .ok (82517 / 1800) ∧
    |(82517 / 1800 : ℚ) - 4584278 / 100000| < 1 / 100000 ∧
    dms_to_decimal dmsEx2 = .ok (-(927 / 100)) ∧
    dms_to_decimal dmsEx3 = .ok (-(82517 / 1800)) ∧
    (-(82517 / 1800) : ℚ) < 0 := by
  have hm1 : dmsMatch dmsEx1 = some (45, 50, 34, [], some 'N') := by decide
  have hm2 : dmsMatch dmsEx2 = some (9, 16, 12, [], some 'W') := by decide
  have hm3 : dmsMatch dmsEx3 = some (-45, 50, 34, [], some 'N') := by decide
  refine ⟨?_, ?_, ?_, ?_, ?_, by norm_num⟩
  · intro s deg mn secI fr dir h
    simp only [dms_to_decimal, h]
    split_ifs with hc
    · congr 1
      ring
    · congr 1
      ring
  · simp only [dms_to_decimal, hm1, secVal, dirSW, natOfDigits, List.foldl]
    rw [if_neg (by decide)]
    norm_num
  · have habs : |(82517 / 1800 : ℚ) - 4584278 / 100000| = 1 / 450000 := by
      rw [abs_sub_comm, abs_of_pos] <;> norm_num
    rw [habs]
    norm_num
  · simp only [dms_to_decimal, hm2, secVal, dirSW, natOfDigits, List.foldl]
    rw [if_pos (by decide)]
    norm_num
  · simp only [dms_to_decimal, hm3, secVal, dirSW, natOfDigits, List.foldl]
    norm_num

/-- C5 witness: the general part of C5 applied at the first spec
example. -/
theorem C5_dms_value_witness :
    dmsMatch dmsEx1 = some (45, 50, 34, [], some 'N') ∧
    dms_to_decimal dmsEx1 = .ok
      ((((45 : Int).natAbs : ℚ) + ((50 : ℕ) : ℚ) / 60 + secVal 34 [] / 3600) *
        (if (45 : Int) < 0 ∨ dirSW (some 'N') = true then -1 else 1)) :=
  ⟨by decide, C5_dms_value.1 dmsEx1 45 50 34 [] (some 'N') (by decide)⟩

/-- C6: the parser raises exactly when the string does not match the
grammar (degree, minute and second groups all required), with the
ValueError message of the source and no defaulted value; in particular
`"45 50"`, which lacks the seconds group, raises. -/
theorem C6_format_error :
    (∀ s, (dmsMatch s).isNone = true ↔
      dms_to_decimal s = .error ("Formato DMS non valido: " ++ s)) ∧
    dms_to_decimal "45 50" = .error "Formato DMS non valido: 45 50" := by
  refine ⟨fun s => ⟨fun h => ?_, fun h => ?_⟩, by decide⟩
  · cases hm : dmsMatch s with
    | none => simp [dms_to_decimal, hm]
    | some p => rw [hm] at h; simp at h
  · cases hm : dmsMatch s with
    | none => simp [hm]
    | some p =>
        obtain ⟨deg, mn, sec, dir⟩ := p
        simp [dms_to_decimal, hm] at h

/-- C3 counterexample: the claim says a run over a collection in which
some geometry entry lacks `horizontalProjection` does not abort and the
remaining features are still processed.  On a concrete collection whose
first feature has such a geometry entry and whose second feature is well
formed and matching, the whole run aborts with a KeyError and nothing is
produced. -/
theorem C3_counterexample :
    filter_geojson_by_radius distZero 1 collC3 = .error PyErr.keyError := by
  decide

/-- C3 as amended: whenever the first geometry entry of the first
feature lacks `horizontalProjection`, the run raises an uncaught
KeyError and aborts as a whole - no warning, no partial output,
whatever the distance oracle, the radius and the rest of the
collection. -/
theorem C3_missing_projection_aborts (dist : J → Option ℚ) (radius_km : ℚ)
    (kvs fkvs gm : List (String × J)) (gs rest : List J)
    (hfeat : getVal kvs "features" = some (J.arr (J.obj fkvs :: rest)))
    (hgeom : getVal fkvs "geometry" = some (J.arr (J.obj gm :: gs)))
    (hmiss : getVal gm "horizontalProjection" = none) :
    filter_geojson_by_radius dist radius_km (J.obj kvs) =
      .error PyErr.keyError := by
  simp [filter_geojson_by_radius, filterCore, pyGet, hfeat, iterDefault,
    iterJ, filterFeatures, procFeature, getGeoms, hgeom, procGeoms,
    subscr, hmiss]

theorem getGeoms_spec {f : J} {gs : List J} (h : getGeoms f = .ok gs) :
    specGeoms f = gs := by
  cases f with
  | obj kvs =>
      simp only [getGeoms, pyGet, bindOk] at h
      cases hv : getVal kvs "geometry" with
      | none =>
          rw [hv] at h
          simp only [iterDefault] at h
          simp only [specGeoms, hv]
          exact (Except.ok.injEq _ _).mp h
      | some v =>
          rw [hv] at h
          cases v with
          | arr xs =>
              simp only [iterDefault, iterJ] at h
              simp only [specGeoms, hv]
              exact (Except.ok.injEq _ _).mp h
          | obj m =>
              simp only [iterDefault, iterJ] at h
              simp only [specGeoms, hv]
              exact (Except.ok.injEq _ _).mp h
          | str s2 =>
              simp only [iterDefault, iterJ] at h
              simp only [specGeoms, hv]
              exact (Except.ok.injEq _ _).mp h
          | int n => simp [iterDefault, iterJ] at h
          | bool b => simp [iterDefault, iterJ] at h
          | null => simp [iterDefault, iterJ] at h
  | str s => simp [getGeoms, pyGet] at h
  | int n => simp [getGeoms, pyGet] at h
  | bool b => simp [getGeoms, pyGet] at h
  | null => simp [getGeoms, pyGet] at h
  | arr xs => simp [getGeoms, pyGet] at h

theorem subscr_hp {g hp : J} (h : subscr g "horizontalProjection" = .ok hp) :
    specHP g = hp := by
  cases g with
  | obj kvs =>
      simp only [subscr] at h
      cases hv : getVal kvs "horizontalProjection" with
      | none => rw [hv] at h; simp at h
      | some v =>
          rw [hv] at h
          simp only [specHP, hv, Option.getD_some]
          exact (Except.ok.injEq _ _).mp h
  | str s => simp [subscr] at h
  | int n => simp [subscr] at h
  | bool b => simp [subscr] at h
  | null => simp [subscr] at h
  | arr xs => simp [subscr] at h

theorem procGeoms_ok_none {m : J → Bool} {tf : J → Except PyErr J} {f : J}
    {gs : List J} (h : procGeoms m tf f gs = .ok none) :
    (gs.any fun g => m (specHP g)) = false := by
  induction gs with
  | nil => simp
  | cons g gs ih =>
      rw [procGeoms] at h
      cases hs : subscr g "horizontalProjection" with
      | error e => rw [hs] at h; simp at h
      | ok hp =>
          rw [hs, bindOk] at h
          split at h
          · rename_i hm
            cases ht : tf f with
            | error e => rw [ht] at h; simp at h
            | ok t => rw [ht] at h; simp at h
          · rename_i hm
            simp only [Bool.not_eq_true] at hm
            simp [subscr_hp hs, hm, ih h]

theorem procGeoms_ok_some {m : J → Bool} {tf : J → Except PyErr J} {f : J}
    {gs : List J} {t : J} (h : procGeoms m tf f gs = .ok (some t)) :
    tf f = .ok t ∧ (gs.any fun g => m (specHP g)) = true := by
  induction gs with
  | nil => simp [procGeoms] at h
  | cons g gs ih =>
      rw [procGeoms] at h
      cases hs : subscr g "horizontalProjection" with
      | error e => rw [hs] at h; simp at h
      | ok hp =>
          rw [hs, bindOk] at h
          split at h
          · rename_i hm
            cases ht : tf f with
            | error e => rw [ht] at h; simp at h
            | ok t2 =>
                rw [ht] at h
                simp only [bindOk, pureOk, Except.ok.injEq,
                  Option.some.injEq] at h
                subst h
                exact ⟨rfl, by simp [subscr_hp hs, hm]⟩
          · rename_i hm
            obtain ⟨h1, h2⟩ := ih h
            exact ⟨h1, by simp [h2]⟩

theorem filterFeatures_forall2 {m : J → Bool} {tf : J → Except PyErr J}
    {fs l : List J} (h : filterFeatures m tf fs = .ok l) :
    List.Forall₂ (fun f t => tf f = .ok t)
      (fs.filter fun f => specIncl m f) l := by
  induction fs generalizing l with
  | nil =>
      simp only [filterFeatures, Except.ok.injEq] at h
      simp [← h]
  | cons f fs ih =>
      rw [filterFeatures] at h
      cases hp : procFeature m tf f with
      | error e => rw [hp] at h; simp at h
      | ok o =>
          rw [hp, bindOk] at h
          cases hr : filterFeatures m tf fs with
          | error e => rw [hr] at h; simp at h
          | ok rest =>
              rw [hr, bindOk] at h
              have hrest := ih hr
              cases o with
              | none =>
                  simp only [pureOk, Except.ok.injEq] at h
                  have hni : specIncl m f = false := by
                    rw [procFeature] at hp
                    cases hg : getGeoms f with
                    | error e => rw [hg] at hp; simp at hp
                    | ok gs =>
                        rw [hg, bindOk] at hp
                        simp [specIncl, getGeoms_spec hg,
                          procGeoms_ok_none hp]
                  simp only [List.filter_cons, hni, Bool.false_eq_true,
                    ite_false, ← h]
                  exact hrest
              | some t =>
                  simp only [pureOk, Except.ok.injEq] at h
                  have hyes : specIncl m f = true ∧ tf f = .ok t := by
                    rw [procFeature] at hp
                    cases hg : getGeoms f with
                    | error e => rw [hg] at hp; simp at hp
                    | ok gs =>
                        rw [hg, bindOk] at hp
                        have hsome := procGeoms_ok_some hp
                        exact ⟨by simp [specIncl, getGeoms_spec hg,
                          hsome.2], hsome.1⟩
                  simp only [List.filter_cons, hyes.1, ite_true, ← h]
                  exact List.Forall₂.cons hyes.2 hrest

theorem getVal_setVal_ne (kvs : List (String × J)) (k k2 : String) (v : J)
    (h : k2 ≠ k) : getVal (setVal kvs k v) k2 = getVal kvs k2 := by
  induction kvs with
  | nil => simp [setVal, getVal, Ne.symm h]
  | cons kv kvs ih =>
      obtain ⟨k1, v1⟩ := kv
      by_cases hk : k1 = k
      · subst hk
        simp [setVal, getVal, Ne.symm h]
      · simp [setVal, hk, getVal, ih]

theorem getVal_delVal_ne (kvs : List (String × J)) (k k2 : String)
    (h : k2 ≠ k) : getVal (delVal kvs k) k2 = getVal kvs k2 := by
  induction kvs with
  | nil => simp [delVal]
  | cons kv kvs ih =>
      obtain ⟨k1, v1⟩ := kv
      by_cases hk : k1 = k
      · subst hk
        simp [delVal, getVal, Ne.symm h, ih]
      · simp [delVal, hk, getVal, ih]

theorem trStrip_geometry {f t : J} (h : trStrip f = .ok t) :
    getKeyOpt t "geometry" = getKeyOpt f "geometry" := by
  cases f with
  | obj kvs =>
      simp only [trStrip] at h
      split at h
      · rename_i l heq
        split at h
        · injection h with h2
          subst h2
          rfl
        · cases hb : scanDT l with
          | error e => rw [hb] at h; simp at h
          | ok b =>
              rw [hb, bindOk] at h
              cases b with
              | true =>
                  rw [if_pos rfl, pureOk] at h
                  injection h with h2
                  subst h2
                  simp only [getKeyOpt]
                  rw [getVal_setVal_ne _ _ _ _ (by decide),
                    getVal_delVal_ne _ _ _ (by decide)]
              | false =>
                  rw [if_neg (by simp), pureOk] at h
                  injection h with h2
                  subst h2
                  rfl
      · injection h with h2
        subst h2
        rfl
  | str s => simp [trStrip] at h
  | int n => simp [trStrip] at h
  | bool b => simp [trStrip] at h
  | null => simp [trStrip] at h
  | arr xs => simp [trStrip] at h

theorem trNorm_geometry {f t : J} (h : trNorm f = .ok t) :
    getKeyOpt t "geometry" = getKeyOpt f "geometry" := by
  cases f with
  | obj kvs =>
      simp only [trNorm] at h
      split at h
      · injection h with h2
        subst h2
        rfl
      · rename_i l heq
        cases hm2 : mapMEx normEntry l with
        | error e => rw [hm2] at h; simp at h
        | ok l2 =>
            rw [hm2, bindOk, pureOk] at h
            injection h with h2
            subst h2
            simp only [getKeyOpt]
            rw [getVal_setVal_ne _ _ _ _ (by decide)]
      · rename_i v heq hne
        cases hi : iterJ v with
        | error e => rw [hi] at h; simp at h
        | ok items =>
            rw [hi, bindOk] at h
            cases hm2 : mapMEx normEntry items with
            | error e => rw [hm2] at h; simp at h
            | ok l2 =>
                rw [hm2, bindOk, pureOk] at h
                injection h with h2
                subst h2
                rfl
  | str s => simp [trNorm] at h
  | int n => simp [trNorm] at h
  | bool b => simp [trNorm] at h
  | null => simp [trNorm] at h
  | arr xs => simp [trNorm] at h

/-- C4: for either variant transform, when the loop completes: the
output is exactly the in-order transformed copies of the features having
at least one matching geometry (so each feature is emitted at most once,
and a feature appears iff some geometry entry of it matches); the
transforms never touch the `geometry` key, so an emitted feature retains
all its geometry entries; and once a geometry matches, the remaining
geometry entries of that feature are not evaluated (the result does not
depend on them at all). -/
theorem C4_first_match (dist : J → Option ℚ) (radius_m : ℚ)
    (tf : J → Except PyErr J) (htf : tf = trStrip ∨ tf = trNorm)
    (fs l : List J)
    (h : filterFeatures (geometry_matches_search_geodetic dist radius_m) tf
      fs = .ok l) :
    List.Forall₂ (fun f t => tf f = .ok t)
      (fs.filter fun f =>
        specIncl (geometry_matches_search_geodetic dist radius_m) f) l ∧
    (∀ f t, tf f = .ok t →
      getKeyOpt t "geometry" = getKeyOpt f "geometry") ∧
    (∀ f g hp gs gs', subscr g "horizontalProjection" = .ok hp →
      geometry_matches_search_geodetic dist radius_m hp = true →
      procGeoms (geometry_matches_search_geodetic dist radius_m) tf f
          (g :: gs) =
        procGeoms (geometry_matches_search_geodetic dist radius_m) tf f
          (g :: gs')) := by
  refine ⟨filterFeatures_forall2 h, ?_, ?_⟩
  · intro f t ht
    rcases htf with rfl | rfl
    · exact trStrip_geometry ht
    · exact trNorm_geometry ht
  · intro f g hp gs gs' hs hm
    rw [procGeoms, procGeoms, hs]
    simp [hm]

/-- C4 witness: the inclusion characterization applied to a one-feature
collection whose single geometry matches. -/
theorem C4_first_match_witness :
    List.Forall₂ (fun f t => trStrip f = .ok t)
      ([featC4].filter fun f =>
        specIncl (geometry_matches_search_geodetic distZero 5) f)
      [featC4] :=
  (C4_first_match distZero 5 trStrip (Or.inl rfl) [featC4] [featC4]
    (by decide)).1

theorem procGeoms_mono {m1 m2 : J → Bool} {tf : J → Except PyErr J}
    {f : J} {gs : List J} {t : J} (hm : ∀ x, m1 x = true → m2 x = true)
    (h : procGeoms m1 tf f gs = .ok (some t)) :
    procGeoms m2 tf f gs = .ok (some t) := by
  induction gs with
  | nil => simp [procGeoms] at h
  | cons g gs ih =>
      rw [procGeoms] at h
      rw [procGeoms]
      cases hs : subscr g "horizontalProjection" with
      | error e => rw [hs] at h; simp at h
      | ok hp =>
          rw [hs] at h
          rw [bindOk] at h
          rw [bindOk]
          split at h
          · rename_i hmt
            rw [if_pos (hm hp hmt)]
            exact h
          · rename_i hmf
            have h2 := ih h
            by_cases hb : m2 hp = true
            · rw [if_pos hb]
              rw [(procGeoms_ok_some h).1, bindOk, pureOk]
            · rw [if_neg hb]
              exact h2

theorem procFeature_mono {m1 m2 : J → Bool} {tf : J → Except PyErr J}
    {f : J} {t : J} (hm : ∀ x, m1 x = true → m2 x = true)
    (h : procFeature m1 tf f = .ok (some t)) :
    procFeature m2 tf f = .ok (some t) := by
  rw [procFeature] at h
  rw [procFeature]
  cases hg : getGeoms f with
  | error e => rw [hg] at h; simp at h
  | ok gs =>
      rw [hg] at h
      rw [bindOk] at h
      rw [bindOk]
      exact procGeoms_mono hm h

theorem filterFeatures_mono {m1 m2 : J → Bool} {tf : J → Except PyErr J}
    {fs l1 l2 : List J} (hm : ∀ x, m1 x = true → m2 x = true)
    (h1 : filterFeatures m1 tf fs = .ok l1)
    (h2 : filterFeatures m2 tf fs = .ok l2) :
    l1.Sublist l2 := by
  induction fs generalizing l1 l2 with
  | nil =>
      simp only [filterFeatures, Except.ok.injEq] at h1 h2
      rw [← h1, ← h2]
  | cons f fs ih =>
      rw [filterFeatures] at h1 h2
      cases hp1 : procFeature m1 tf f with
      | error e => rw [hp1] at h1; simp at h1
      | ok o1 =>
          rw [hp1, bindOk] at h1
          cases hr1 : filterFeatures m1 tf fs with
          | error e => rw [hr1] at h1; simp at h1
          | ok rest1 =>
              rw [hr1, bindOk] at h1
              cases hp2 : procFeature m2 tf f with
              | error e => rw [hp2] at h2; simp at h2
              | ok o2 =>
                  rw [hp2, bindOk] at h2
                  cases hr2 : filterFeatures m2 tf fs with
                  | error e => rw [hr2] at h2; simp at h2
                  | ok rest2 =>
                      rw [hr2, bindOk] at h2
                      have hrec := ih hr1 hr2
                      cases o1 with
                      | some t =>
                          simp only [pureOk, Except.ok.injEq] at h1
                          have hmono := procFeature_mono hm hp1
                          rw [hp2] at hmono
                          injection hmono with h3
                          subst h3
                          simp only [pureOk, Except.ok.injEq] at h2
                          rw [← h1, ← h2]
                          exact hrec.cons₂ t
                      | none =>
                          simp only [pureOk, Except.ok.injEq] at h1
                          cases o2 with
                          | none =>
                              simp only [pureOk, Except.ok.injEq] at h2
                              rw [← h1, ← h2]
                              exact hrec
                          | some t2 =>
                              simp only [pureOk, Except.ok.injEq] at h2
                              rw [← h1, ← h2]
                              exact hrec.cons t2

theorem getVal_filterne_append (kvs : List (String × J)) (k : String)
    (v : J) :
    getVal ((kvs.filter fun kv => kv.1 ≠ k) ++ [(k, v)]) k = some v := by
  induction kvs with
  | nil => simp [getVal]
  | cons kv kvs ih =>
      obtain ⟨k1, v1⟩ := kv
      simp only [ne_eq, decide_not] at ih ⊢
      by_cases hk : k1 = k
      · simp [List.filter_cons, hk, ih]
      · simp [List.filter_cons, hk, getVal, ih]

theorem getVal_filterne_append_ne (kvs : List (String × J)) (k k2 : String)
    (v : J) (h : k2 ≠ k) :
    getVal ((kvs.filter fun kv => kv.1 ≠ k) ++ [(k, v)]) k2 =
      getVal kvs k2 := by
  induction kvs with
  | nil => simp [getVal, Ne.symm h]
  | cons kv kvs ih =>
      obtain ⟨k1, v1⟩ := kv
      simp only [ne_eq, decide_not] at ih ⊢
      by_cases hk : k1 = k
      · subst hk
        simp [List.filter_cons, getVal, Ne.symm h, ih]
      · by_cases hk2 : k1 = k2
        · subst hk2
          simp [List.filter_cons, hk, getVal]
        · simp [List.filter_cons, hk, getVal, hk2, ih]

theorem getVal_setVal_self (kvs : List (String × J)) (k : String) (v : J) :
    getVal (setVal kvs k v) k = some v := by
  induction kvs with
  | nil => simp [setVal, getVal]
  | cons kv kvs ih =>
      obtain ⟨k1, v1⟩ := kv
      by_cases hk : k1 = k
      · simp [setVal, hk, getVal]
      · simp [setVal, hk, getVal, ih]

theorem assemble_features {g : J} {filtered : List J} {out : J}
    (h : assemble g filtered = .ok out) :
    getKeyOpt out "features" = some (J.arr filtered) := by
  cases g with
  | obj kvs =>
      simp only [assemble] at h
      have hfb : getVal ((kvs.filter fun kv => kv.1 ≠ "features") ++
          [("features", J.arr filtered)]) "features" = some (J.arr filtered) :=
        getVal_filterne_append kvs "features" (J.arr filtered)
      split at h
      case _ t heq =>
        rw [pureOk, bindOk] at h
        cases hA : countTag filtered "ATM09" with
        | error e => rw [hA] at h; simp at h
        | ok a =>
            rw [hA, bindOk] at h
            cases hN : countTag filtered "NFZ" with
            | error e => rw [hN] at h; simp at h
            | ok nf =>
                rw [hN, bindOk] at h
                cases hM : countTag filtered "NOTAM" with
                | error e => rw [hM] at h; simp at h
                | ok nn =>
                    rw [hM, bindOk] at h
                    split at h
                    case _ d heq2 =>
                        rw [pureOk, bindOk, pureOk] at h
                        injection h with h2
                        subst h2
                        simp only [getKeyOpt]
                        rw [getVal_setVal_ne _ _ _ _ (by decide),
                          getVal_setVal_ne _ _ _ _ (by decide)]
                        exact hfb
                    case _ heq2 hne =>
                        rw [bindErr] at h
                        simp at h
                    case _ heq2 =>
                        rw [pureOk, bindOk, pureOk] at h
                        injection h with h2
                        subst h2
                        simp only [getKeyOpt]
                        rw [getVal_setVal_ne _ _ _ _ (by decide)]
                        exact hfb
      case _ heq hne =>
        rw [bindErr] at h
        simp at h
      case _ heq =>
        rw [pureOk, bindOk] at h
        cases hA : countTag filtered "ATM09" with
        | error e => rw [hA] at h; simp at h
        | ok a =>
            rw [hA, bindOk] at h
            cases hN : countTag filtered "NFZ" with
            | error e => rw [hN] at h; simp at h
            | ok nf =>
                rw [hN, bindOk] at h
                cases hM : countTag filtered "NOTAM" with
                | error e => rw [hM] at h; simp at h
                | ok nn =>
                    rw [hM, bindOk] at h
                    split at h
                    case _ d heq2 =>
                        rw [pureOk, bindOk, pureOk] at h
                        injection h with h2
                        subst h2
                        simp only [getKeyOpt]
                        rw [getVal_setVal_ne _ _ _ _ (by decide)]
                        exact hfb
                    case _ heq2 hne =>
                        rw [bindErr] at h
                        simp at h
                    case _ heq2 =>
                        rw [pureOk, bindOk, pureOk] at h
                        injection h with h2
                        subst h2
                        simp only [getKeyOpt]
                        exact hfb
  | str s => simp [assemble] at h
  | int n => simp [assemble] at h
  | bool b => simp [assemble] at h
  | null => simp [assemble] at h
  | arr xs => simp [assemble] at h

theorem geomMatch_mono {dist : J → Option ℚ} {r r2 : ℚ} (hr : r ≤ r2) :
    ∀ x, geometry_matches_search_geodetic dist r x = true →
      geometry_matches_search_geodetic dist r2 x = true := by
  intro x hx
  unfold geometry_matches_search_geodetic at hx ⊢
  split at hx
  · simp at hx
  · rename_i d hd
    simp only [decide_eq_true_eq] at hx ⊢
    exact le_trans hx hr

/-- C8 counterexample: the claim says that with center and policy fixed,
every feature included at radius `r` is also included at every larger
radius.  On a concrete collection, at radius 1 km the run succeeds and
includes feature A, but at radius 20 km the newly matched feature B has
a bare-integer applicability entry on which the strip transform raises a
TypeError, so the whole run aborts and no feature at all is included. -/
theorem C8_counterexample :
    (1 : ℚ) ≤ 20 ∧
    featuresOfRun (filter_geojson_by_radius distOfInt 1 collC8) = [featA] ∧
    filter_geojson_by_radius distOfInt 20 collC8 =
      .error PyErr.typeError := by
  have h1 : (1 : ℚ) * 1000 = 1000 := by norm_num
  have h20 : (20 : ℚ) * 1000 = 20000 := by norm_num
  refine ⟨by norm_num, ?_, ?_⟩
  · simp only [filter_geojson_by_radius, h1]
    decide
  · simp only [filter_geojson_by_radius, h20]
    decide

/-- C8 as amended: for radii `r ≤ r2`, provided the runs at both radii
complete without an exception, every feature included at radius `r` is
also included, in the same order, at radius `r2` (the filtered list at
`r` is a sublist of the one at `r2`).  Enlarging the radius can however
turn a successful run into an aborted one, as the counterexample
shows. -/
theorem C8_radius_monotone (dist : J → Option ℚ) (r r2 : ℚ) (g : J)
    (o1 o2 : J) (s1 s2 : String) (hr : r ≤ r2)
    (h1 : filter_geojson_by_radius dist r g = .ok (o1, s1))
    (h2 : filter_geojson_by_radius dist r2 g = .ok (o2, s2)) :
    (featuresOf o1).Sublist (featuresOf o2) := by
  simp only [filter_geojson_by_radius, filterCore] at h1 h2
  cases hg : pyGet g "features" with
  | error e => rw [hg] at h1; simp at h1
  | ok o =>
      rw [hg, bindOk] at h1 h2
      cases hi : iterDefault o with
      | error e => rw [hi] at h1; simp at h1
      | ok feats =>
          rw [hi, bindOk] at h1 h2
          cases hf1 : filterFeatures
              (geometry_matches_search_geodetic dist (r * 1000)) trStrip
              feats with
          | error e => rw [hf1] at h1; simp at h1
          | ok l1 =>
              rw [hf1, bindOk] at h1
              cases hf2 : filterFeatures
                  (geometry_matches_search_geodetic dist (r2 * 1000)) trStrip
                  feats with
              | error e => rw [hf2] at h2; simp at h2
              | ok l2 =>
                  rw [hf2, bindOk] at h2
                  cases ha1 : assemble g l1 with
                  | error e => rw [ha1] at h1; simp at h1
                  | ok out1 =>
                      rw [ha1, bindOk] at h1
                      cases ha2 : assemble g l2 with
                      | error e => rw [ha2] at h2; simp at h2
                      | ok out2 =>
                          rw [ha2, bindOk] at h2
                          simp only [pureOk, Except.ok.injEq,
                            Prod.mk.injEq] at h1 h2
                          have hrm : r * 1000 ≤ r2 * 1000 :=
                            mul_le_mul_of_nonneg_right hr (by norm_num)
                          have hsub := filterFeatures_mono
                            (geomMatch_mono hrm) hf1 hf2
                          have e1 := assemble_features ha1
                          have e2 := assemble_features ha2
                          rw [← h1.1, ← h2.1]
                          simp only [featuresOf, e1, e2]
                          exact hsub

theorem headD_consHead (c : Char) (L : List (List Char)) :
    (consHead c L).headD [] = c :: L.headD [] := by
  cases L <;> simp [consHead]

theorem pySplit_headD_eq_trunc (sep : List Char) (hsep : sep ≠ []) :
    ∀ n cs, cs.length ≤ n →
      (pySplitChars sep n cs).headD [] = truncFirstChars sep cs := by
  intro n
  induction n with
  | zero =>
      intro cs hc
      rw [List.length_eq_zero.mp (Nat.le_zero.mp hc)]
      simp [pySplitChars, truncFirstChars]
  | succ n ih =>
      intro cs hc
      cases cs with
      | nil => simp [pySplitChars, truncFirstChars]
      | cons c cs2 =>
          by_cases hp : listIsPre sep (c :: cs2) = true
          · simp only [pySplitChars, truncFirstChars, hp, if_true,
              List.headD_cons]
          · rw [show pySplitChars sep (n + 1) (c :: cs2) =
                consHead c (pySplitChars sep n cs2) from by
              simp [pySplitChars, hp]]
            rw [show truncFirstChars sep (c :: cs2) =
                c :: truncFirstChars sep cs2 from by
              simp [truncFirstChars, hp]]
            rw [headD_consHead]
            rw [ih cs2 (by simp only [List.length_cons] at hc; omega)]

theorem splitHead_eq_truncFirst (d : String) :
    splitHead d " - GeoZones" =
      String.mk (truncFirstChars (" - GeoZones").data d.data) := by
  unfold splitHead
  rw [pySplit_headD_eq_trunc _ (by decide) d.data.length d.data le_rfl]

theorem countTag_countP {l : List J} {tag : String} {n : ℕ}
    (h : countTag l tag = .ok n) :
    n = l.countP fun f =>
      getKeyOpt f "otherReasonInfo" = some (J.str tag) := by
  induction l generalizing n with
  | nil =>
      simp only [countTag, Except.ok.injEq] at h
      simp [← h]
  | cons f fs ih =>
      rw [countTag] at h
      cases hg : pyGet f "otherReasonInfo" with
      | error e => rw [hg] at h; simp at h
      | ok o =>
          rw [hg, bindOk] at h
          cases hc : countTag fs tag with
          | error e => rw [hc] at h; simp at h
          | ok n2 =>
              rw [hc, bindOk] at h
              simp only [pureOk, Except.ok.injEq] at h
              subst h
              have hko : getKeyOpt f "otherReasonInfo" = o := by
                cases f with
                | obj kvs =>
                    simp only [pyGet, Except.ok.injEq] at hg
                    simp [getKeyOpt, hg]
                | str s => simp [pyGet] at hg
                | int n3 => simp [pyGet] at hg
                | bool b => simp [pyGet] at hg
                | null => simp [pyGet] at hg
                | arr xs => simp [pyGet] at hg
              rw [List.countP_cons, ← ih hc, hko]
              by_cases ho : o = some (J.str tag)
              · simp [ho]
                omega
              · simp [ho]

theorem assemble_keys {kvs : List (String × J)} {filtered : List J} {out : J}
    (h : assemble (J.obj kvs) filtered = .ok out) :
    (∀ t0, getVal kvs "title" = some (J.str t0) →
      getKeyOpt out "title" = some (J.str (t0 ++ " - cropped"))) ∧
    (∀ d, getVal kvs "description" = some (J.str d) →
      ∃ a nf nn, countTag filtered "ATM09" = .ok a ∧
        countTag filtered "NFZ" = .ok nf ∧
        countTag filtered "NOTAM" = .ok nn ∧
        getKeyOpt out "description" = some (J.str
          (pyStrip (splitHead d " - GeoZones") ++
            summaryText filtered.length a nf nn))) := by
  have hBt := getVal_filterne_append_ne kvs "features" "title"
    (J.arr filtered) (by decide)
  have hBd := getVal_filterne_append_ne kvs "features" "description"
    (J.arr filtered) (by decide)
  simp only [assemble] at h
  split at h
  case _ t heq =>
    rw [pureOk, bindOk] at h
    cases hA : countTag filtered "ATM09" with
    | error e => rw [hA] at h; simp at h
    | ok a =>
        rw [hA, bindOk] at h
        cases hN : countTag filtered "NFZ" with
        | error e => rw [hN] at h; simp at h
        | ok nf =>
            rw [hN, bindOk] at h
            cases hM : countTag filtered "NOTAM" with
            | error e => rw [hM] at h; simp at h
            | ok nn =>
                rw [hM, bindOk] at h
                have hb1t : getVal (setVal
                    ((kvs.filter fun kv => kv.1 ≠ "features") ++
                      [("features", J.arr filtered)]) "title"
                    (J.str (t ++ " - cropped"))) "title" =
                    some (J.str (t ++ " - cropped")) :=
                  getVal_setVal_self _ _ _
                have hb1d : getVal (setVal
                    ((kvs.filter fun kv => kv.1 ≠ "features") ++
                      [("features", J.arr filtered)]) "title"
                    (J.str (t ++ " - cropped"))) "description" =
                    getVal kvs "description" := by
                  rw [getVal_setVal_ne _ _ _ _ (by decide)]
                  exact hBd
                split at h
                case _ d heq2 =>
                  rw [pureOk, bindOk, pureOk] at h
                  injection h with h2
                  subst h2
                  constructor
                  · intro t0 ht0
                    rw [hBt, ht0] at heq
                    injection heq with heq3
                    injection heq3 with heq4
                    subst heq4
                    simp only [getKeyOpt]
                    rw [getVal_setVal_ne _ _ _ _ (by decide)]
                    exact hb1t
                  · intro d0 hd0
                    rw [hb1d, hd0] at heq2
                    injection heq2 with heq3
                    injection heq3 with heq4
                    subst heq4
                    refine ⟨a, nf, nn, rfl, rfl, rfl, ?_⟩
                    simp only [getKeyOpt]
                    exact getVal_setVal_self _ _ _
                case _ heq2 hne =>
                  rw [bindErr] at h
                  simp at h
                case _ heq2 =>
                  rw [pureOk, bindOk, pureOk] at h
                  injection h with h2
                  subst h2
                  constructor
                  · intro t0 ht0
                    rw [hBt, ht0] at heq
                    injection heq with heq3
                    injection heq3 with heq4
                    subst heq4
                    simp only [getKeyOpt]
                    exact hb1t
                  · intro d0 hd0
                    rw [hb1d, hd0] at heq2
                    simp at heq2
  case _ heq hne =>
    rw [bindErr] at h
    simp at h
  case _ heq =>
    rw [pureOk, bindOk] at h
    cases hA : countTag filtered "ATM09" with
    | error e => rw [hA] at h; simp at h
    | ok a =>
        rw [hA, bindOk] at h
        cases hN : countTag filtered "NFZ" with
        | error e => rw [hN] at h; simp at h
        | ok nf =>
            rw [hN, bindOk] at h
            cases hM : countTag filtered "NOTAM" with
            | error e => rw [hM] at h; simp at h
            | ok nn =>
                rw [hM, bindOk] at h
                split at h
                case _ d heq2 =>
                  rw [pureOk, bindOk, pureOk] at h
                  injection h with h2
                  subst h2
                  constructor
                  · intro t0 ht0
                    rw [hBt, ht0] at heq
                    simp at heq
                  · intro d0 hd0
                    rw [hBd, hd0] at heq2
                    injection heq2 with heq3
                    injection heq3 with heq4
                    subst heq4
                    refine ⟨a, nf, nn, rfl, rfl, rfl, ?_⟩
                    simp only [getKeyOpt]
                    exact getVal_setVal_self _ _ _
                case _ heq2 hne =>
                  rw [bindErr] at h
                  simp at h
                case _ heq2 =>
                  rw [pureOk, bindOk, pureOk] at h
                  injection h with h2
                  subst h2
                  constructor
                  · intro t0 ht0
                    rw [hBt, ht0] at heq
                    simp at heq
                  · intro d0 hd0
                    rw [hBd, hd0] at heq2
                    simp at heq2

/-- C7 counterexample: the claim describes the description rewrite as
truncation at the first ` - GeoZones` directly followed by the appended
summary, with no whitespace handling.  The code additionally strips
leading and trailing whitespace from the truncated prefix: on the
description `" x"` the code produces `"x - cropped - ..."` while the
claim's formula produces `" x - cropped - ..."`. -/
theorem C7_counterexample :
    assemble (J.obj [("description", J.str " x")]) [] =
      .ok (J.obj [("description",
        J.str "x - cropped - GeoZones[0] - ATM09[0]/NFZ[0]/NOTAM[0]"),
        ("features", J.arr [])]) ∧
    claimDescription " x" 0 0 0 0 =
      " x - cropped - GeoZones[0] - ATM09[0]/NFZ[0]/NOTAM[0]" ∧
    ("x - cropped - GeoZones[0] - ATM09[0]/NFZ[0]/NOTAM[0]" : String) ≠
      " x - cropped - GeoZones[0] - ATM09[0]/NFZ[0]/NOTAM[0]" := by
  refine ⟨by decide, by decide, by decide⟩

/-- C7 as amended: when the assembly succeeds, an existing string title
gets the literal suffix ` - cropped` appended exactly once, and an
existing string description is truncated at the first occurrence of
` - GeoZones`, the truncated text is stripped of leading and trailing
whitespace, and then the summary
` - cropped - GeoZones[N] - ATM09[a]/NFZ[n]/NOTAM[m]` is appended, where
N is the filtered feature count and a, n, m count the filtered features
whose otherReasonInfo equals the respective tag. -/
theorem C7_title_description (kvs : List (String × J)) (filtered : List J)
    (out : J) (h : assemble (J.obj kvs) filtered = .ok out) :
    (∀ t0, getVal kvs "title" = some (J.str t0) →
      getKeyOpt out "title" = some (J.str (t0 ++ " - cropped"))) ∧
    (∀ d, getVal kvs "description" = some (J.str d) →
      getKeyOpt out "description" = some (J.str
        (pyStrip (String.mk (truncFirstChars (" - GeoZones").data d.data)) ++
          summaryText filtered.length
            (filtered.countP fun f =>
              getKeyOpt f "otherReasonInfo" = some (J.str "ATM09"))
            (filtered.countP fun f =>
              getKeyOpt f "otherReasonInfo" = some (J.str "NFZ"))
            (filtered.countP fun f =>
              getKeyOpt f "otherReasonInfo" = some (J.str "NOTAM"))))) := by
  obtain ⟨ha, hb⟩ := assemble_keys h
  refine ⟨ha, fun d hd => ?_⟩
  obtain ⟨a, nf, nn, hA, hN, hM, hout⟩ := hb d hd
  rw [hout, splitHead_eq_truncFirst, countTag_countP hA, countTag_countP hN,
    countTag_countP hM]

/-- C7 witness: the amended theorem applied to a collection with title
`Map` and description `Zones` and an empty filtered set. -/
theorem C7_title_description_witness :
    getKeyOpt outC7W "title" = some (J.str "Map - cropped") :=
  (C7_title_description
    [("title", J.str "Map"), ("description", J.str "Zones")] [] outC7W
    (by decide)).1 "Map" (by decide)

/-- C8 witness for the amended theorem: the same one-feature collection
filtered at radii 1 km and 2 km. -/
theorem C8_radius_monotone_witness :
    (featuresOf outC8W).Sublist (featuresOf outC8W) :=
  C8_radius_monotone distOfInt 1 2 collC8W outC8W outC8W
    (serializeOut outC8W) (serializeOut outC8W) (by norm_num)
    (by simp only [filter_geojson_by_radius,
          show (1 : ℚ) * 1000 = 1000 from by norm_num]
        decide)
    (by simp only [filter_geojson_by_radius,
          show (2 : ℚ) * 1000 = 2000 from by norm_num]
        decide)

/-- C9: when a filter succeeds, an empty result replies `empty` and
leaves the whole server state (the shared slot and the output file)
unchanged, while a result with at least one feature replies `ok` after
storing the result in the slot and writing its serialization to the
file, with the loaded original untouched. -/
theorem C9_filter_route (dist : J → Option ℚ) (radius : ℚ) (st : SrvState)
    (fc : J) (h : filter_by_circle dist radius st.original = .ok fc) :
    (getKeyOpt fc "features" = some (J.arr []) →
      filter_route dist radius st = .ok (RouteResp.respEmpty, st)) ∧
    (∀ x l, getKeyOpt fc "features" = some (J.arr (x :: l)) →
      filter_route dist radius st = .ok (RouteResp.respOk,
        { original := st.original, current := some fc,
          fileOut := some (serializeOut fc) })) := by
  constructor
  · intro hf
    unfold filter_route
    rw [h, bindOk]
    cases fc with
    | obj kvs =>
        simp only [getKeyOpt] at hf
        simp only [pyGet, bindOk, hf]
        simp [pyTruthy]
    | str s => simp [getKeyOpt] at hf
    | int n => simp [getKeyOpt] at hf
    | bool b => simp [getKeyOpt] at hf
    | null => simp [getKeyOpt] at hf
    | arr xs => simp [getKeyOpt] at hf
  · intro x l hf
    unfold filter_route
    rw [h, bindOk]
    cases fc with
    | obj kvs =>
        simp only [getKeyOpt] at hf
        simp only [pyGet, bindOk, hf]
        simp [pyTruthy]
    | str s => simp [getKeyOpt] at hf
    | int n => simp [getKeyOpt] at hf
    | bool b => simp [getKeyOpt] at hf
    | null => simp [getKeyOpt] at hf
    | arr xs => simp [getKeyOpt] at hf

/-- C9 witness: a filter of an empty original yields zero features and
the route replies `empty`, leaving the state unchanged. -/
theorem C9_filter_route_witness :
    filter_route distZero 0 stEmpty = .ok (RouteResp.respEmpty, stEmpty) :=
  (C9_filter_route distZero 0 stEmpty (J.obj [("features", J.arr [])])
    (by decide)).1 (by decide)

/-- C10 counterexample: the claim says that when no applicability entry
carries a `startDateTime`/`endDateTime` key the emitted copy keeps
applicability unchanged and its description untouched.  But the
membership test is Python's `in`: on a string entry it is substring
containment, so an applicability list whose single entry is a plain
string containing the words still triggers the strip - the key is
popped and the description overwritten although no entry carries any
key. -/
theorem C10_counterexample :
    (∀ m : List (String × J),
      (J.str "note startDateTime inside" : J) ≠ J.obj m) ∧
    trStrip (J.obj [("applicability",
        J.arr [J.str "note startDateTime inside"])]) =
      .ok (J.obj [("description", J.str rcMessage)]) :=
  ⟨fun m h => J.noConfusion h, by decide⟩

/-- C10 as amended: the emitted copy of a matched feature in strip mode
is characterized by the Python membership scan `scanDT`: when
applicability is absent, not a list, an empty list, or a nonempty list
on which the scan returns false, the copy equals the feature unchanged;
when the scan returns true the copy has applicability popped and its
description overwritten with the fixed message; and on lists all of
whose entries are dicts the scan returns true exactly when some entry
carries a `startDateTime` or `endDateTime` key - the claim's wording is
accurate for dict entries but not for string entries, where `in` is
substring containment. -/
theorem C10_strip_characterization :
    (∀ kvs : List (String × J), getVal kvs "applicability" = none →
      trStrip (J.obj kvs) = .ok (J.obj kvs)) ∧
    (∀ (kvs : List (String × J)) (v : J),
      getVal kvs "applicability" = some v → (∀ l, v ≠ J.arr l) →
      trStrip (J.obj kvs) = .ok (J.obj kvs)) ∧
    (∀ (kvs : List (String × J)) (l : List J),
      getVal kvs "applicability" = some (J.arr l) →
      scanDT l = .ok false → trStrip (J.obj kvs) = .ok (J.obj kvs)) ∧
    (∀ (kvs : List (String × J)) (l : List J),
      getVal kvs "applicability" = some (J.arr l) → l ≠ [] →
      scanDT l = .ok true →
      trStrip (J.obj kvs) = .ok (J.obj (setVal (delVal kvs "applicability")
        "description" (J.str rcMessage)))) ∧
    (∀ l : List J, (∀ e ∈ l, ∃ m, e = J.obj m) →
      (scanDT l = .ok true ↔
        ∃ m, J.obj m ∈ l ∧ ((getVal m "startDateTime").isSome ∨
          (getVal m "endDateTime").isSome))) := by
  refine ⟨?_, ?_, ?_, ?_, ?_⟩
  · intro kvs hnone
    simp [trStrip, hnone]
  · intro kvs v hv hne
    cases v with
    | arr l => exact absurd rfl (hne l)
    | str s => simp [trStrip, hv]
    | int n => simp [trStrip, hv]
    | bool b => simp [trStrip, hv]
    | null => simp [trStrip, hv]
    | obj m => simp [trStrip, hv]
  · intro kvs l hv hscan
    simp only [trStrip, hv]
    by_cases hl : l.isEmpty
    · rw [if_pos hl]
    · rw [if_neg hl, hscan, bindOk, if_neg (by simp), pureOk]
  · intro kvs l hv hne hscan
    simp only [trStrip, hv]
    rw [if_neg (by simpa using hne), hscan, bindOk, if_pos rfl, pureOk]
  · intro l hl
    induction l with
    | nil => simp [scanDT]
    | cons e rest ih =>
        obtain ⟨m, rfl⟩ := hl e (by simp)
        have hrest := ih fun e2 he2 => hl e2 (by simp [he2])
        have hent : entryHasDT (J.obj m) =
            .ok ((getVal m "startDateTime").isSome ||
              (getVal m "endDateTime").isSome) := by
          cases h1 : (getVal m "startDateTime").isSome with
          | true => simp [entryHasDT, pyIn, h1]
          | false =>
              cases h2 : (getVal m "endDateTime").isSome with
              | true => simp [entryHasDT, pyIn, h1, h2]
              | false => simp [entryHasDT, pyIn, h1, h2]
        rw [scanDT, hent, bindOk]
        by_cases hb : ((getVal m "startDateTime").isSome ||
            (getVal m "endDateTime").isSome) = true
        · rw [if_pos hb]
          simp only [pureOk]
          constructor
          · intro _
            have hb2 : (getVal m "startDateTime").isSome = true ∨
                (getVal m "endDateTime").isSome = true := by simpa using hb
            rcases hb2 with h1 | h2
            · exact ⟨m, by simp, Or.inl h1⟩
            · exact ⟨m, by simp, Or.inr h2⟩
          · intro _
            trivial
        · rw [if_neg hb, hrest]
          have hb2 := hb
          simp only [Bool.or_eq_true, not_or, Bool.not_eq_true] at hb2
          obtain ⟨h1, h2⟩ := hb2
          constructor
          · rintro ⟨m2, hm2, hp⟩
            exact ⟨m2, by simp [hm2], hp⟩
          · rintro ⟨m2, hm2, hp⟩
            rcases List.mem_cons.mp hm2 with heq | hmem
            · injection heq with heq2
              subst heq2
              rcases hp with hs | he
              · rw [h1] at hs
                simp at hs
              · rw [h2] at he
                simp at he
            · exact ⟨m2, hmem, hp⟩

/-- C10 witness: the strip branch of the amended characterization
applied to a feature whose single applicability entry carries a
`startDateTime` key. -/
theorem C10_strip_characterization_witness :
    trStrip (J.obj [("applicability",
        J.arr [J.obj [("startDateTime", J.str "2030-01-01T00:00:00Z")]])]) =
      .ok (J.obj (setVal (delVal [("applicability",
        J.arr [J.obj [("startDateTime", J.str "2030-01-01T00:00:00Z")]])]
        "applicability") "description" (J.str rcMessage))) :=
  C10_strip_characterization.2.2.2.1
    [("applicability",
      J.arr [J.obj [("startDateTime", J.str "2030-01-01T00:00:00Z")]])]
    [J.obj [("startDateTime", J.str "2030-01-01T00:00:00Z")]]
    (by decide) (by decide) (by decide)

/-- C3 witness for the amended theorem, at a concrete input. -/
theorem C3_missing_projection_aborts_witness :
    filter_geojson_by_radius distZero 2
      (J.obj [("features", J.arr [J.obj [("geometry", J.arr
        [J.obj [("upperLimit", J.int 120)]])]])]) = .error PyErr.keyError :=
  C3_missing_projection_aborts distZero 2
    [("features", J.arr [J.obj [("geometry", J.arr
      [J.obj [("upperLimit", J.int 120)]])]])]
    [("geometry", J.arr [J.obj [("upperLimit", J.int 120)]])]
    [("upperLimit", J.int 120)] [] []
    (by decide) (by decide) (by decide)

end UAS

